import Mathlib

/-!
Shallow embedding of the FastTrading matching engine
(`rust-services/matching-engine/src/orderbook.rs`, `engine.rs`, `api.rs`,
and `rust-services/common/src/types.rs`).

Modelling conventions:
* `rust_decimal::Decimal` prices and quantities are modelled by `ℚ`
  (exact decimal arithmetic; the operations used by the engine are
  `+`, `-`, `*`, `/`, `min` and comparisons, which agree with `ℚ`).
* `Uuid` values are modelled by `Nat`.  `Uuid::new_v4()` for a trade id is
  modelled deterministically by the book's trade counter (no claim depends
  on the random id).
* Wall-clock timestamps (`created_at`, `updated_at`, `executed_at`) are not
  modelled; no claim depends on them.
* Rust methods that mutate `self` are modelled by state passing: each
  operation takes an `OrderBook` and returns the updated one.
* `BTreeMap<Decimal, Level>` is modelled by an association list with the
  lookup / min-key / max-key / erase operations the engine uses;
  `HashMap<Uuid, (Side, Decimal)>` likewise.
* The unbounded `loop` in `OrderBook::match_order` is modelled with
  explicit fuel; the `finished` flag records whether the loop reached one
  of its own exit conditions (rather than running out of fuel).
  `process_order` supplies fuel `opposing side length + 1`, which the
  termination theorem shows is enough whenever the incoming order has a
  non-negative remaining quantity.
-/

set_option maxRecDepth 100000

namespace FastTrading

/-- `Side` from `common/src/types.rs`. -/
inductive Side where
  | Buy
  | Sell
deriving DecidableEq

/-- `Order::is_buy` / the `order.side == Side::Buy` test. -/
def Side.isBuy : Side → Bool
  | Side.Buy => true
  | Side.Sell => false

/-- `OrderType` from `common/src/types.rs`. -/
inductive OrderType where
  | Market
  | Limit
  | StopLimit
  | StopMarket
deriving DecidableEq

/-- `TimeInForce` from `common/src/types.rs`. -/
inductive TimeInForce where
  | GTC
  | IOC
  | FOK
  | GTD
deriving DecidableEq

/-- `OrderStatus` from `common/src/types.rs`. -/
inductive OrderStatus where
  | Pending
  | Open
  | PartiallyFilled
  | Filled
  | Cancelled
  | Rejected
  | Expired
deriving DecidableEq

/-- `Order` from `common/src/types.rs` (timestamps omitted, see header). -/
structure Order where
  id : Nat
  client_order_id : String
  user_id : Nat
  symbol : String
  side : Side
  order_type : OrderType
  time_in_force : TimeInForce
  status : OrderStatus
  price : Option ℚ
  stop_price : Option ℚ
  quantity : ℚ
  filled_quantity : ℚ
  remaining_quantity : ℚ
  avg_fill_price : Option ℚ
  sequence : Nat
deriving DecidableEq

/-- `Trade` from `common/src/types.rs` (`executed_at` omitted; `id` is the
`Uuid::new_v4()` stand-in, see header). -/
structure Trade where
  id : Nat
  trade_id : Nat
  symbol : String
  maker_order_id : Nat
  maker_user_id : Nat
  taker_order_id : Nat
  taker_user_id : Nat
  price : ℚ
  quantity : ℚ
  quote_quantity : ℚ
  taker_side : Side
deriving DecidableEq

/-- `OrderEntry` from `orderbook.rs`. -/
structure OrderEntry where
  order_id : Nat
  user_id : Nat
  price : ℚ
  remaining_quantity : ℚ
  sequence : Nat
deriving DecidableEq

/-- `Level` from `orderbook.rs`: a `VecDeque` (front = list head) plus the
cached total quantity. -/
structure Level where
  orders : List OrderEntry
  total_quantity : ℚ
deriving DecidableEq

/-- `Level::add`: push to the tail, bump `total_quantity`. -/
def Level.add (l : Level) (e : OrderEntry) : Level :=
  { orders := l.orders ++ [e],
    total_quantity := l.total_quantity + e.remaining_quantity }

/-- Helper for `Level::remove`: drop the first entry with the given id,
returning the new queue and the removed entry. -/
def removeFirstById : List OrderEntry → Nat → List OrderEntry × Option OrderEntry
  | [], _ => ([], none)
  | e :: rest, oid =>
    if e.order_id = oid then (rest, some e)
    else
      let r := removeFirstById rest oid
      (e :: r.1, r.2)

/-- `Level::remove`: remove the first entry with the given id (if any) and
decrement `total_quantity` by its remaining quantity. -/
def Level.remove (l : Level) (oid : Nat) : Level :=
  match removeFirstById l.orders oid with
  | (rest, some e) =>
      { orders := rest, total_quantity := l.total_quantity - e.remaining_quantity }
  | (_, none) => l

/-- The bid / ask ladder: `BTreeMap<Decimal, Level>` as an association list
(keys unique by construction). -/
abbrev PriceMap := List (ℚ × Level)

/-- `BTreeMap::get` on a ladder. -/
def getLevel : PriceMap → ℚ → Option Level
  | [], _ => none
  | (q, l) :: rest, p => if q = p then some l else getLevel rest p

/-- Replace the level stored at a price, or append a fresh binding
(`BTreeMap::entry(price).or_insert`-style update). -/
def setLevel : PriceMap → ℚ → Level → PriceMap
  | [], p, l => [(p, l)]
  | (q, l0) :: rest, p, l =>
    if q = p then (p, l) :: rest else (q, l0) :: setLevel rest p l

/-- `BTreeMap::remove` on a ladder. -/
def eraseLevel : PriceMap → ℚ → PriceMap
  | [], _ => []
  | (q, l) :: rest, p =>
    if q = p then eraseLevel rest p else (q, l) :: eraseLevel rest p

/-- `BTreeMap::first_key_value`: the binding with the least price. -/
def firstKeyValue : PriceMap → Option (ℚ × Level)
  | [] => none
  | (q, l) :: rest =>
    match firstKeyValue rest with
    | none => some (q, l)
    | some (q2, l2) => if q ≤ q2 then some (q, l) else some (q2, l2)

/-- `BTreeMap::last_key_value`: the binding with the greatest price. -/
def lastKeyValue : PriceMap → Option (ℚ × Level)
  | [] => none
  | (q, l) :: rest =>
    match lastKeyValue rest with
    | none => some (q, l)
    | some (q2, l2) => if q2 ≤ q then some (q, l) else some (q2, l2)

/-- The order-id location index: `HashMap<Uuid, (Side, Decimal)>` as an
association list. -/
abbrev LocationIndex := List (Nat × (Side × ℚ))

/-- `HashMap::get` on the location index. -/
def locGet : LocationIndex → Nat → Option (Side × ℚ)
  | [], _ => none
  | (k, v) :: rest, oid => if k = oid then some v else locGet rest oid

/-- `HashMap::insert` on the location index (replace or append). -/
def locInsert : LocationIndex → Nat → Side × ℚ → LocationIndex
  | [], oid, v => [(oid, v)]
  | (k, v0) :: rest, oid, v =>
    if k = oid then (oid, v) :: rest else (k, v0) :: locInsert rest oid v

/-- `HashMap::remove` on the location index. -/
def locRemove : LocationIndex → Nat → LocationIndex
  | [], _ => []
  | (k, v) :: rest, oid =>
    if k = oid then locRemove rest oid else (k, v) :: locRemove rest oid

/-- `OrderBook` from `orderbook.rs` (the `RwLock` / atomic wrappers carry no
sequential meaning and are dropped). -/
structure OrderBook where
  symbol : String
  bids : PriceMap
  asks : PriceMap
  order_prices : LocationIndex
  sequence : Nat
  trade_counter : Nat
  book_sequence : Nat
deriving DecidableEq

/-- `OrderBook::new`. -/
def OrderBook.new (symbol : String) : OrderBook :=
  { symbol := symbol, bids := [], asks := [], order_prices := [],
    sequence := 0, trade_counter := 0, book_sequence := 0 }

/-- Result of the maker-consuming `while` loop inside
`OrderBook::match_at_price`. -/
structure FillResult where
  matched : ℚ
  trades : List Trade
  orders : List OrderEntry
  removed_qty : ℚ
  trade_counter : Nat
  filled_ids : List Nat
deriving DecidableEq

/-- The `while quantity > Decimal::ZERO` loop of `OrderBook::match_at_price`
(lines 265-311): walk the level queue front-first, skipping (and popping)
makers owned by the taker's user, filling the rest.  `removed_qty` is the
total subtracted from the level's `total_quantity`; `filled_ids` are the
maker ids removed from `order_prices` (note: self-trade pops do NOT record
an id there, exactly as in the source).  In the in-place-update branch the
loop re-checks `quantity > 0` with `quantity = 0` and exits, which the
equation encodes by returning directly. -/
def fillLoop (symbol : String) (taker : Order) (price : ℚ) :
    List OrderEntry → ℚ → Nat → FillResult
  | [], _, ctr => { matched := 0, trades := [], orders := [], removed_qty := 0,
                    trade_counter := ctr, filled_ids := [] }
  | maker :: rest, q, ctr =>
    if 0 < q then
      if maker.user_id = taker.user_id then
        let r := fillLoop symbol taker price rest q ctr
        { matched := r.matched, trades := r.trades, orders := r.orders,
          removed_qty := maker.remaining_quantity + r.removed_qty,
          trade_counter := r.trade_counter, filled_ids := r.filled_ids }
      else
        let fq := min q maker.remaining_quantity
        let t : Trade :=
          { id := ctr, trade_id := ctr, symbol := symbol,
            maker_order_id := maker.order_id, maker_user_id := maker.user_id,
            taker_order_id := taker.id, taker_user_id := taker.user_id,
            price := price, quantity := fq, quote_quantity := fq * price,
            taker_side := taker.side }
        if maker.remaining_quantity ≤ fq then
          let r := fillLoop symbol taker price rest (q - fq) (ctr + 1)
          { matched := fq + r.matched, trades := t :: r.trades,
            orders := r.orders,
            removed_qty := maker.remaining_quantity + r.removed_qty,
            trade_counter := r.trade_counter,
            filled_ids := maker.order_id :: r.filled_ids }
        else
          { matched := fq, trades := [t],
            orders := { maker with
              remaining_quantity := maker.remaining_quantity - fq } :: rest,
            removed_qty := fq, trade_counter := ctr + 1, filled_ids := [] }
    else
      { matched := 0, trades := [], orders := maker :: rest, removed_qty := 0,
        trade_counter := ctr, filled_ids := [] }

/-- `OrderBook::match_at_price` (lines 244-319). -/
def OrderBook.match_at_price (book : OrderBook) (taker : Order)
    (price quantity : ℚ) (is_buy : Bool) : ℚ × List Trade × OrderBook :=
  let side := if is_buy then book.asks else book.bids
  match getLevel side price with
  | none => (0, [], book)
  | some level =>
    let r := fillLoop book.symbol taker price level.orders quantity
      book.trade_counter
    let level2 : Level :=
      { orders := r.orders, total_quantity := level.total_quantity - r.removed_qty }
    let side2 :=
      if level2.orders.isEmpty then eraseLevel side price
      else setLevel side price level2
    let op2 := r.filled_ids.foldl locRemove book.order_prices
    let book2 :=
      if is_buy then
        { book with
            asks := side2, order_prices := op2,
            trade_counter := r.trade_counter }
      else
        { book with
            bids := side2, order_prices := op2,
            trade_counter := r.trade_counter }
    (r.matched, r.trades, book2)

/-- `OrderBook::get_best_ask` (lines 214-226). -/
def OrderBook.get_best_ask (book : OrderBook) (max_price : Option ℚ) :
    ℚ × Bool :=
  match firstKeyValue book.asks with
  | some (price, _) =>
    match max_price with
    | some maxP => if price ≤ maxP then (price, true) else (0, false)
    | none => (price, true)
  | none => (0, false)

/-- `OrderBook::get_best_bid` (lines 229-241). -/
def OrderBook.get_best_bid (book : OrderBook) (min_price : Option ℚ) :
    ℚ × Bool :=
  match lastKeyValue book.bids with
  | some (price, _) =>
    match min_price with
    | some minP => if minP ≤ price then (price, true) else (0, false)
    | none => (price, true)
  | none => (0, false)

/-- Result of the matching loop / `OrderBook::match_order`. -/
structure MatchResult where
  remaining : ℚ
  order : Order
  trades : List Trade
  book : OrderBook
  finished : Bool
deriving DecidableEq

/-- The `loop` of `OrderBook::match_order` (lines 170-197), with fuel.
`finished = false` marks fuel exhaustion (the Rust loop would still be
running); both genuine exits set it to `true`. -/
def matchLoop (is_buy : Bool) :
    Nat → ℚ → Order → List Trade → OrderBook → MatchResult
  | 0, remaining, order, trades, book =>
    { remaining := remaining, order := order, trades := trades, book := book,
      finished := false }
  | fuel + 1, remaining, order, trades, book =>
    if remaining = 0 then
      { remaining := remaining, order := order, trades := trades, book := book,
        finished := true }
    else
      let pb := if is_buy then book.get_best_ask order.price
                else book.get_best_bid order.price
      if pb.2 then
        let m := book.match_at_price order pb.1 remaining is_buy
        matchLoop is_buy fuel (remaining - m.1)
          { order with filled_quantity := order.filled_quantity + m.1 }
          (trades ++ m.2.1) m.2.2
      else
        { remaining := remaining, order := order, trades := trades,
          book := book, finished := true }

/-- `OrderBook::match_order` (lines 164-211): run the matching loop starting
from `order.remaining_quantity`, then compute the average fill price. -/
def OrderBook.match_order (book : OrderBook) (order : Order) (fuel : Nat) :
    MatchResult :=
  let r := matchLoop order.side.isBuy fuel order.remaining_quantity order [] book
  if r.trades.isEmpty then r
  else
    let total_value := (r.trades.map (fun t => t.price * t.quantity)).sum
    let total_qty := (r.trades.map (fun t => t.quantity)).sum
    { r with order := { r.order with
        avg_fill_price := some (total_value / total_qty) } }

/-- `OrderBook::add_to_book` (lines 322-347).  The entry takes the order's
CURRENT `remaining_quantity` field, exactly as in the source. -/
def OrderBook.add_to_book (book : OrderBook) (order : Order) : OrderBook :=
  let price := order.price.getD 0
  let entry : OrderEntry :=
    { order_id := order.id, user_id := order.user_id, price := price,
      remaining_quantity := order.remaining_quantity,
      sequence := order.sequence }
  let op2 := locInsert book.order_prices order.id (order.side, price)
  let book2 :=
    match order.side with
    | Side.Buy =>
      { book with
        bids := setLevel book.bids price
          (((getLevel book.bids price).getD
            { orders := [], total_quantity := 0 }).add entry),
        order_prices := op2 }
    | Side.Sell =>
      { book with
        asks := setLevel book.asks price
          (((getLevel book.asks price).getD
            { orders := [], total_quantity := 0 }).add entry),
        order_prices := op2 }
  { book2 with book_sequence := book2.book_sequence + 1 }

/-- `OrderBook::process_order` (lines 126-161).  Note two faithful details:
the status branch compares the NOT-yet-updated `remaining_quantity` field
with `quantity` (line 138), and `add_to_book` runs before
`order.remaining_quantity = remaining` is assigned (line 152). -/
def OrderBook.process_order (book : OrderBook) (order0 : Order) :
    Order × List Trade × OrderBook :=
  let order1 := { order0 with
                    sequence := book.sequence,
                    status := OrderStatus.Open }
  let book1 := { book with sequence := book.sequence + 1 }
  let fuel :=
    (if order1.side.isBuy then book1.asks.length else book1.bids.length) + 1
  let r := book1.match_order order1 fuel
  let step :=
    if r.remaining = 0 then
      ({ r.order with status := OrderStatus.Filled }, r.book)
    else if r.order.remaining_quantity < r.order.quantity then
      let o := { r.order with status := OrderStatus.PartiallyFilled }
      if o.price.isSome then (o, r.book.add_to_book o) else (o, r.book)
    else
      if r.order.price.isSome then (r.order, r.book.add_to_book r.order)
      else (r.order, r.book)
  let order2 := { step.1 with remaining_quantity := r.remaining }
  let book2 :=
    if r.trades.isEmpty then step.2
    else { step.2 with book_sequence := step.2.book_sequence + 1 }
  (order2, r.trades, book2)

/-- Removal of a cancelled order from one ladder (the body of the
`if let Some(level) = book.get_mut(&price)` block in
`OrderBook::cancel_order`). -/
def cancelFromSide (side : PriceMap) (price : ℚ) (order_id : Nat) : PriceMap :=
  match getLevel side price with
  | none => side
  | some lvl =>
    let l2 := lvl.remove order_id
    if l2.orders.isEmpty then eraseLevel side price
    else setLevel side price l2

/-- `OrderBook::cancel_order` (lines 350-372): keyed entirely on the
location index; the index entry is removed first, and `book_sequence` is
bumped whenever the index had the id. -/
def OrderBook.cancel_order (book : OrderBook) (order_id : Nat) :
    Bool × OrderBook :=
  match locGet book.order_prices order_id with
  | none => (false, book)
  | some (side, price) =>
    let op2 := locRemove book.order_prices order_id
    let book2 :=
      match side with
      | Side.Buy =>
        { book with
            bids := cancelFromSide book.bids price order_id,
            order_prices := op2 }
      | Side.Sell =>
        { book with
            asks := cancelFromSide book.asks price order_id,
            order_prices := op2 }
    (true, { book2 with book_sequence := book2.book_sequence + 1 })

/-- The four symbols initialized by `MatchingEngine::new` (`engine.rs`
lines 64-69). -/
def engineSymbols : List String :=
  ["BTC-USDT", "ETH-USDT", "SOL-USDT", "AVAX-USDT"]

/-- `MatchingEngine` (`engine.rs`): the per-symbol book map (the Kafka
producer and command channel carry no book state). -/
structure MatchingEngine where
  order_books : List (String × OrderBook)
deriving DecidableEq

/-- `DashMap::get` on the book map. -/
def booksGet : List (String × OrderBook) → String → Option OrderBook
  | [], _ => none
  | (k, b) :: rest, s => if k = s then some b else booksGet rest s

/-- Store an updated book back into the book map. -/
def booksSet : List (String × OrderBook) → String → OrderBook →
    List (String × OrderBook)
  | [], s, b => [(s, b)]
  | (k, b0) :: rest, s, b =>
    if k = s then (s, b) :: rest else (k, b0) :: booksSet rest s b

/-- `MatchingEngine::new`: every symbol gets its own fresh `OrderBook`
(each with its own `sequence` counter starting at 0). -/
def MatchingEngine.new : MatchingEngine :=
  { order_books := engineSymbols.map (fun s => (s, OrderBook.new s)) }

/-- `MatchingEngine::process_new_order` (`engine.rs` lines 120-151):
route to the symbol's book and run `process_order`; `none` models the
`SymbolNotFound` error. -/
def MatchingEngine.process_new_order (eng : MatchingEngine) (order : Order) :
    Option (Order × List Trade × MatchingEngine) :=
  match booksGet eng.order_books order.symbol with
  | none => none
  | some book =>
    let r := book.process_order order
    some (r.1, r.2.1,
      { order_books := booksSet eng.order_books order.symbol r.2.2 })

/-- `ApiError` from `api.rs`. -/
structure ApiError where
  error : String
  code : String
deriving DecidableEq

/-- `SubmitOrderRequest` from `api.rs`.  The `quantity` and `price` strings
are modelled by their `Decimal::from_str` parse results: `none` stands for
a string that fails decimal parsing (note `"0"` and `"-1"` parse
successfully, to `0` and `-1`). -/
structure SubmitOrderRequest where
  client_order_id : Option String
  symbol : String
  side : Side
  order_type : OrderType
  quantity : Option ℚ
  price : Option (Option ℚ)
  time_in_force : Option TimeInForce
  user_id : Nat

/-- The `submit_order` handler of `api.rs` (lines 144-231) up to the point
where the canonical `Order` is handed to the engine: every check the intake
validator performs, in source order.  `fresh_id` models `Uuid::new_v4()`. -/
def submit_order (req : SubmitOrderRequest) (fresh_id : Nat) :
    Except ApiError Order :=
  match req.quantity with
  | none => Except.error { error := "Invalid quantity", code := "INVALID_QUANTITY" }
  | some quantity =>
    match req.price with
    | some none =>
      Except.error { error := "Invalid price", code := "INVALID_PRICE" }
    | other =>
      let price : Option ℚ := match other with
        | some (some p) => some p
        | _ => none
      if req.order_type = OrderType.Limit ∧ price = none then
        Except.error { error := "Limit order requires price",
                       code := "PRICE_REQUIRED" }
      else
        let parts := req.symbol.splitOn "-"
        if parts.length ≠ 2 then
          Except.error { error := "Invalid symbol format",
                         code := "INVALID_SYMBOL" }
        else
          Except.ok
            { id := fresh_id,
              client_order_id := req.client_order_id.getD (toString fresh_id),
              user_id := req.user_id,
              symbol := (parts.headD "").toUpper ++ "-" ++
                ((parts.getD 1 "").toUpper),
              side := req.side, order_type := req.order_type,
              time_in_force := req.time_in_force.getD TimeInForce.GTC,
              status := OrderStatus.Pending, price := price,
              stop_price := none, quantity := quantity,
              filled_quantity := 0, remaining_quantity := quantity,
              avg_fill_price := none, sequence := 0 }

/-- Order constructor mirroring the test helper `create_order` in
`orderbook.rs` (fresh order: `filled = 0`, `remaining = quantity`,
status `Pending`). -/
def mkOrder (id user : Nat) (side : Side) (otype : OrderType)
    (tif : TimeInForce) (price : Option ℚ) (qty : ℚ) : Order :=
  { id := id, client_order_id := "test", user_id := user,
    symbol := "ETH-USDT", side := side, order_type := otype,
    time_in_force := tif, status := OrderStatus.Pending, price := price,
    stop_price := none, quantity := qty, filled_quantity := 0,
    remaining_quantity := qty, avg_fill_price := none, sequence := 0 }

/-! ### Concrete scenarios used by the claim theorems -/

/-- Book after user 100 rested a sell of 1 @ 2000 (order id 1) on a fresh
`ETH-USDT` book. -/
def bookA1 : OrderBook :=
  ((OrderBook.new "ETH-USDT").process_order
    (mkOrder 1 100 Side.Sell OrderType.Limit TimeInForce.GTC (some 2000) 1)).2.2

/-- User 200 submits a limit buy of 2 @ 2000 (order id 2) against `bookA1`:
it fills 1 against the resting ask and leaves remainder 1. -/
def c1run : Order × List Trade × OrderBook :=
  bookA1.process_order
    (mkOrder 2 200 Side.Buy OrderType.Limit TimeInForce.GTC (some 2000) 2)

/-- Book holding asks 0.5 @ 2000 (order id 1) and 0.5 @ 2001 (order id 2),
both user 100 — the book of spec scenario S5. -/
def bookFok : OrderBook :=
  (((OrderBook.new "ETH-USDT").process_order
      (mkOrder 1 100 Side.Sell OrderType.Limit TimeInForce.GTC (some 2000)
        (1/2))).2.2.process_order
    (mkOrder 2 100 Side.Sell OrderType.Limit TimeInForce.GTC (some 2001)
      (1/2))).2.2

/-- User 200 submits a FOK limit buy of 2.0 @ 2001 against `bookFok`
(spec scenario S5: the crossable liquidity is only 1.0). -/
def c2run : Order × List Trade × OrderBook :=
  bookFok.process_order
    (mkOrder 3 200 Side.Buy OrderType.Limit TimeInForce.FOK (some 2001) 2)

/-- User 100 submits a limit buy of 1 @ 2000 (order id 2) against `bookA1`,
which holds user 100's own resting sell: self-trade prevention fires. -/
def c4run : Order × List Trade × OrderBook :=
  bookA1.process_order
    (mkOrder 2 100 Side.Buy OrderType.Limit TimeInForce.GTC (some 2000) 1)

/-- A market buy of 1.0 (no limit price) on an empty book: nothing to match,
positive remainder. -/
def c5run : Order × List Trade × OrderBook :=
  (OrderBook.new "ETH-USDT").process_order
    (mkOrder 1 100 Side.Buy OrderType.Market TimeInForce.GTC none 1)

/-- The book left by `c4run`: order id 1 is resting nowhere, yet its
location-index entry survives. -/
def c6book : OrderBook := c4run.2.2

/-- A syntactically valid submission whose quantity string parses to 0. -/
def c7req : SubmitOrderRequest :=
  { client_order_id := none, symbol := "ETH-USDT", side := Side.Buy,
    order_type := OrderType.Limit, quantity := some 0,
    price := some (some 2000), time_in_force := none, user_id := 7 }

/-- First order routed to the fresh engine's `BTC-USDT` book. -/
def c9run1 : Option (Order × List Trade × MatchingEngine) :=
  MatchingEngine.new.process_new_order
    { mkOrder 1 100 Side.Sell OrderType.Limit TimeInForce.GTC (some 2000) 1 with
        symbol := "BTC-USDT" }

/-- Second order, routed to the same engine's `ETH-USDT` book. -/
def c9run2 : Option (Order × List Trade × MatchingEngine) :=
  c9run1.bind (fun r => r.2.2.process_new_order
    { mkOrder 2 200 Side.Sell OrderType.Limit TimeInForce.GTC (some 3000) 1 with
        symbol := "ETH-USDT" })

/-- A price level queue with two resting makers: order 1 (user 100) ahead
of order 2 (user 200), 1.0 each — the setting of spec scenario S6. -/
def wOrders : List OrderEntry :=
  [{ order_id := 1, user_id := 100, price := 2000, remaining_quantity := 1,
     sequence := 0 },
   { order_id := 2, user_id := 200, price := 2000, remaining_quantity := 1,
     sequence := 1 }]

/-- Taker for the S6 scenario: user 300 buys 1.5 @ 2000. -/
def wTaker : Order :=
  mkOrder 3 300 Side.Buy OrderType.Limit TimeInForce.GTC (some 2000) (3/2)

/-! ### Basic lemmas about the container operations -/

theorem locGet_locRemove (l : LocationIndex) (oid : Nat) :
    locGet (locRemove l oid) oid = none := by
  induction l with
  | nil => rfl
  | cons kv rest ih =>
    obtain ⟨k, v⟩ := kv
    by_cases h : k = oid
    · simpa [locRemove, h] using ih
    · simpa [locRemove, locGet, h] using ih

theorem locRemove_sublist (l : LocationIndex) (oid : Nat) :
    (locRemove l oid).Sublist l := by
  induction l with
  | nil => exact List.Sublist.refl _
  | cons kv rest ih =>
    obtain ⟨k, v⟩ := kv
    by_cases h : k = oid
    · simpa [locRemove, h] using ih.cons (k, v)
    · simpa [locRemove, h] using ih.cons₂ (k, v)

theorem foldl_locRemove_sublist (ids : List Nat) :
    ∀ l : LocationIndex, (ids.foldl locRemove l).Sublist l := by
  induction ids with
  | nil => exact fun l => List.Sublist.refl _
  | cons i ids ih =>
    intro l
    exact (ih (locRemove l i)).trans (locRemove_sublist l i)

/-! ### Claim theorems: concrete evaluations -/

/-- Claim C1 (code bug): a fresh limit buy of 2 @ 2000 against a resting ask
of 1 @ 2000 ends with unmatched remainder R = 1, so 0 < R < quantity, yet
`process_order` returns status `Open`, not `PartiallyFilled`: the status
branch at orderbook.rs:138 compares the `remaining_quantity` field before
it is updated at line 152. -/
theorem c1_incomplete_fill_reported_open :
    c1run.1.remaining_quantity = 1 ∧ c1run.1.quantity = 2 ∧
    c1run.1.status = OrderStatus.Open ∧
    c1run.1.status ≠ OrderStatus.PartiallyFilled := by with_unfolding_all decide

/-- Claim C2 (code bug): in spec scenario S5 a FOK buy of 2.0 @ 2001 against
only 1.0 of crossable liquidity should emit no trades and be `Rejected` with
the book unchanged; the engine never reads `time_in_force`, emits both
trades, empties the ask ladder, and returns the order `Open`. -/
theorem c2_fok_order_fills_and_rests :
    c2run.1.time_in_force = TimeInForce.FOK ∧
    c2run.2.1.length = 2 ∧
    c2run.1.status = OrderStatus.Open ∧
    c2run.1.status ≠ OrderStatus.Rejected ∧
    c2run.2.2.asks = [] := by with_unfolding_all decide

/-- Claim C3 (code bug): after the taker of `c1run` (quantity 2, filled 1)
is rested, the book entry records `remaining_quantity = 2` — the original
quantity, not the residual 1 — because `add_to_book` (orderbook.rs:143)
runs before `order.remaining_quantity = remaining` (line 152). -/
theorem c3_rested_residual_has_full_quantity :
    c1run.1.filled_quantity = 1 ∧ c1run.1.remaining_quantity = 1 ∧
    getLevel c1run.2.2.bids 2000 =
      some { orders := [{ order_id := 2, user_id := 200, price := 2000,
                          remaining_quantity := 2, sequence := 1 }],
             total_quantity := 2 } := by with_unfolding_all decide

/-- Claim C4 (code bug): self-trade prevention pops the maker (order id 1)
from the level and creates no trade, but — unlike the filled-maker path at
orderbook.rs:303 — never removes its `order_prices` entry, so a location-
index entry for a terminal order survives. -/
theorem c4_self_trade_leaves_location_index_entry :
    c4run.2.1 = [] ∧
    getLevel c4run.2.2.asks 2000 = none ∧
    locGet c4run.2.2.order_prices 1 = some (Side.Sell, 2000) := by with_unfolding_all decide

/-- Claim C5 (counterexample): a market buy of 1.0 on an empty book finishes
with positive remainder 1, and `process_order` returns it `Open`, not
`Cancelled` — no `no_liquidity` cancellation exists in the code. -/
theorem c5_market_residual_not_cancelled :
    c5run.1.price = none ∧ 0 < c5run.1.remaining_quantity ∧
    c5run.1.status = OrderStatus.Open ∧
    c5run.1.status ≠ OrderStatus.Cancelled := by with_unfolding_all decide

/-- Claim C6 (counterexample): in `c6book` no resting order with id 1 exists
on either ladder, yet `cancel_order 1` returns `true` and bumps
`book_sequence`, because the dangling location-index entry left by
self-trade prevention still maps id 1. -/
theorem c6_cancel_true_without_resting_order :
    (∀ pl ∈ c6book.bids, ∀ e ∈ pl.2.orders, e.order_id ≠ 1) ∧
    (∀ pl ∈ c6book.asks, ∀ e ∈ pl.2.orders, e.order_id ≠ 1) ∧
    (c6book.cancel_order 1).1 = true ∧
    (c6book.cancel_order 1).2.book_sequence = c6book.book_sequence + 1 := by
  with_unfolding_all decide

/-- Claim C7 (code bug): a submission whose quantity string parses to 0
passes every intake check and reaches the engine as a canonical `Order`
with `quantity = 0`; the validator never tests positivity. -/
theorem c7_zero_quantity_passes_validation :
    (submit_order c7req 42).toOption.map
      (fun o => (o.quantity, o.remaining_quantity, o.status)) =
    some (0, 0, OrderStatus.Pending) := by with_unfolding_all decide

/-- Claim C9 (counterexample): each book carries its own `sequence` counter
starting at 0, so the first order on the `BTC-USDT` book and the first
order on the `ETH-USDT` book of the same engine both receive sequence 0 —
sequences are not unique across the engine. -/
theorem c9_sequences_collide_across_books :
    c9run1.map (fun r => r.1.sequence) = some 0 ∧
    c9run2.map (fun r => r.1.sequence) = some 0 ∧
    c9run1.map (fun r => r.1.id) = some 1 ∧
    c9run2.map (fun r => r.1.id) = some 2 := by with_unfolding_all decide

/-! ### Preservation lemmas for the matching pipeline -/

theorem match_at_price_sequence (book : OrderBook) (t : Order) (p q : ℚ)
    (ib : Bool) : (book.match_at_price t p q ib).2.2.sequence = book.sequence := by
  cases ib <;> simp only [OrderBook.match_at_price] <;> split <;> rfl

theorem match_at_price_op_sublist (book : OrderBook) (t : Order) (p q : ℚ)
    (ib : Bool) :
    (book.match_at_price t p q ib).2.2.order_prices.Sublist book.order_prices := by
  cases ib <;> simp only [OrderBook.match_at_price] <;> split
  · exact List.Sublist.refl _
  · exact foldl_locRemove_sublist _ _
  · exact List.Sublist.refl _
  · exact foldl_locRemove_sublist _ _

theorem matchLoop_book_sequence (ib : Bool) (fuel : Nat) :
    ∀ (rem : ℚ) (o : Order) (tr : List Trade) (bk : OrderBook),
    (matchLoop ib fuel rem o tr bk).book.sequence = bk.sequence := by
  induction fuel with
  | zero => intro rem o tr bk; rfl
  | succ n ih =>
    intro rem o tr bk
    simp only [matchLoop]
    split
    · rfl
    · split <;> split
      · rw [ih]; exact match_at_price_sequence ..
      · rfl
      · rw [ih]; exact match_at_price_sequence ..
      · rfl

theorem matchLoop_op_sublist (ib : Bool) (fuel : Nat) :
    ∀ (rem : ℚ) (o : Order) (tr : List Trade) (bk : OrderBook),
    (matchLoop ib fuel rem o tr bk).book.order_prices.Sublist bk.order_prices := by
  induction fuel with
  | zero => intro rem o tr bk; exact List.Sublist.refl _
  | succ n ih =>
    intro rem o tr bk
    simp only [matchLoop]
    split
    · exact List.Sublist.refl _
    · split <;> split
      · exact (ih ..).trans (match_at_price_op_sublist ..)
      · exact List.Sublist.refl _
      · exact (ih ..).trans (match_at_price_op_sublist ..)
      · exact List.Sublist.refl _

theorem matchLoop_order_spec (ib : Bool) (fuel : Nat) :
    ∀ (rem : ℚ) (o : Order) (tr : List Trade) (bk : OrderBook),
    (matchLoop ib fuel rem o tr bk).order =
      { o with filled_quantity :=
          (matchLoop ib fuel rem o tr bk).order.filled_quantity } := by
  induction fuel with
  | zero => intro rem o tr bk; rfl
  | succ n ih =>
    intro rem o tr bk
    simp only [matchLoop]
    split
    · rfl
    · split <;> split
      · rw [ih]
      · rfl
      · rw [ih]
      · rfl

theorem match_order_book_sequence (bk : OrderBook) (o : Order) (f : Nat) :
    (bk.match_order o f).book.sequence = bk.sequence := by
  simp only [OrderBook.match_order]
  split
  · exact matchLoop_book_sequence ..
  · exact matchLoop_book_sequence ..

theorem match_order_op_sublist (bk : OrderBook) (o : Order) (f : Nat) :
    (bk.match_order o f).book.order_prices.Sublist bk.order_prices := by
  simp only [OrderBook.match_order]
  split
  · exact matchLoop_op_sublist ..
  · exact matchLoop_op_sublist ..

theorem match_order_order_spec (bk : OrderBook) (o : Order) (f : Nat) :
    (bk.match_order o f).order =
      { o with
          filled_quantity := (bk.match_order o f).order.filled_quantity,
          avg_fill_price := (bk.match_order o f).order.avg_fill_price } := by
  simp only [OrderBook.match_order]
  split
  · rw [matchLoop_order_spec]
  · rw [matchLoop_order_spec]

theorem add_to_book_sequence (bk : OrderBook) (o : Order) :
    (bk.add_to_book o).sequence = bk.sequence := by
  simp only [OrderBook.add_to_book]
  cases o.side <;> rfl

theorem matchLoop_order_price (ib : Bool) (f : Nat) (rem : ℚ) (o : Order)
    (tr : List Trade) (bk : OrderBook) :
    (matchLoop ib f rem o tr bk).order.price = o.price := by
  rw [matchLoop_order_spec]

theorem match_order_order_price (bk : OrderBook) (o : Order) (f : Nat) :
    (bk.match_order o f).order.price = o.price := by
  rw [match_order_order_spec]

theorem match_order_order_status (bk : OrderBook) (o : Order) (f : Nat) :
    (bk.match_order o f).order.status = o.status := by
  rw [match_order_order_spec]

theorem match_order_order_quantity (bk : OrderBook) (o : Order) (f : Nat) :
    (bk.match_order o f).order.quantity = o.quantity := by
  rw [match_order_order_spec]

theorem match_order_order_remaining (bk : OrderBook) (o : Order) (f : Nat) :
    (bk.match_order o f).order.remaining_quantity = o.remaining_quantity := by
  rw [match_order_order_spec]

theorem match_order_order_sequence (bk : OrderBook) (o : Order) (f : Nat) :
    (bk.match_order o f).order.sequence = o.sequence := by
  rw [match_order_order_spec]

theorem process_order_order_sequence (book : OrderBook) (o : Order) :
    (book.process_order o).1.sequence = book.sequence := by
  simp only [OrderBook.process_order]
  repeat' split
  all_goals exact match_order_order_sequence ..

theorem process_order_book_sequence (book : OrderBook) (o : Order) :
    (book.process_order o).2.2.sequence = book.sequence + 1 := by
  simp only [OrderBook.process_order]
  repeat' split
  all_goals first
    | exact match_order_book_sequence ..
    | (rw [add_to_book_sequence]; exact match_order_book_sequence ..)

/-- Claim C9 (amended): within one book, `process_order` assigns strictly
increasing sequence numbers: the first order gets the book's current
counter value, and the counter advances by one per processed order. -/
theorem c9_per_book_sequences_strictly_increase (book : OrderBook)
    (o1 o2 : Order) :
    (book.process_order o1).1.sequence <
      (((book.process_order o1).2.2).process_order o2).1.sequence := by
  rw [process_order_order_sequence, process_order_order_sequence,
    process_order_book_sequence]
  exact Nat.lt_succ_self _

/-- Claim C6 (amended): `cancel_order` is keyed entirely on the location
index: it returns `true` and bumps `book_sequence` exactly when the index
maps the id (which, after self-trade prevention, can happen with no resting
order); for ids absent from the index it returns `false` and leaves the
book untouched, and a second cancel of the same id always returns `false`. -/
theorem cancel_order_false_of_none (bk : OrderBook) (oid : Nat)
    (h : locGet bk.order_prices oid = none) :
    (bk.cancel_order oid).1 = false := by
  simp [OrderBook.cancel_order, h]

theorem c6_cancel_keyed_on_location_index (book : OrderBook) (oid : Nat) :
    ((book.cancel_order oid).1 = true ↔
      (locGet book.order_prices oid).isSome = true) ∧
    ((book.cancel_order oid).1 = true →
      (book.cancel_order oid).2.book_sequence = book.book_sequence + 1) ∧
    ((book.cancel_order oid).1 = false → (book.cancel_order oid).2 = book) ∧
    ((book.cancel_order oid).2.cancel_order oid).1 = false := by
  cases h : locGet book.order_prices oid with
  | none =>
    have hc : book.cancel_order oid = (false, book) := by
      simp [OrderBook.cancel_order, h]
    refine ⟨?_, ?_, ?_, ?_⟩
    · rw [hc]; simp [h]
    · rw [hc]; intro hf; cases hf
    · intro _; rw [hc]
    · rw [hc]; exact cancel_order_false_of_none _ _ h
  | some sp =>
    obtain ⟨s, p⟩ := sp
    have hc1 : (book.cancel_order oid).1 = true := by
      cases s <;> simp [OrderBook.cancel_order, h]
    have hop : (book.cancel_order oid).2.order_prices =
        locRemove book.order_prices oid := by
      cases s <;> simp [OrderBook.cancel_order, h]
    have hbs : (book.cancel_order oid).2.book_sequence =
        book.book_sequence + 1 := by
      cases s <;> simp [OrderBook.cancel_order, h]
    refine ⟨?_, ?_, ?_, ?_⟩
    · simp [hc1, h]
    · intro _; exact hbs
    · intro hf; rw [hc1] at hf; cases hf
    · have h2 : locGet ((book.cancel_order oid).2.order_prices) oid = none := by
        rw [hop]; exact locGet_locRemove ..
      exact cancel_order_false_of_none _ _ h2

/-- Claim C5 (amended): a market order (no limit price) that arrives fresh
(`remaining_quantity = quantity`) and finishes `process_order` with a
positive unfilled remainder is returned with status `Open` (never
`Cancelled`), and its residual is never rested: the location index gains
no entry (it only shrinks, since matching merely removes filled makers). -/
theorem c5_market_order_residual_stays_open (book : OrderBook) (o : Order)
    (hp : o.price = none) (hq : o.remaining_quantity = o.quantity) :
    (0 < (book.process_order o).1.remaining_quantity →
      (book.process_order o).1.status = OrderStatus.Open) ∧
    (book.process_order o).2.2.order_prices.Sublist book.order_prices := by
  constructor
  · intro hpos
    simp only [OrderBook.process_order] at hpos ⊢
    repeat' split
    all_goals first
      | exact match_order_order_status ..
      | simp_all [match_order_order_remaining, match_order_order_quantity,
          match_order_order_status]
  · simp only [OrderBook.process_order]
    repeat' split
    all_goals first
      | exact match_order_op_sublist ..
      | simp_all [match_order_order_price]

/-- Witness for the amended C5 claim: the concrete market buy of 1.0 on an
empty book is returned `Open` and rests nothing. -/
theorem c5_market_order_residual_witness :
    ((OrderBook.new "ETH-USDT").process_order
        (mkOrder 1 100 Side.Buy OrderType.Market TimeInForce.GTC none 1)).1.status
      = OrderStatus.Open ∧
    (((OrderBook.new "ETH-USDT").process_order
        (mkOrder 1 100 Side.Buy OrderType.Market TimeInForce.GTC
          none 1)).2.2.order_prices).Sublist
      (OrderBook.new "ETH-USDT").order_prices :=
  ⟨(c5_market_order_residual_stays_open _ _ rfl rfl).1
      (by with_unfolding_all decide),
   (c5_market_order_residual_stays_open _ _ rfl rfl).2⟩

/-! ### Termination of the matching loop -/

theorem fillLoop_matched_of_nonpos (s : String) (t : Order) (p : ℚ)
    (orders : List OrderEntry) (q : ℚ) (c : Nat) (h : ¬ 0 < q) :
    (fillLoop s t p orders q c).matched = 0 := by
  cases orders with
  | nil => rfl
  | cons m r => simp [fillLoop, h]

theorem fillLoop_matched_le (s : String) (t : Order) (p : ℚ) :
    ∀ (orders : List OrderEntry) (q : ℚ) (c : Nat), 0 ≤ q →
      (fillLoop s t p orders q c).matched ≤ q := by
  intro orders
  induction orders with
  | nil => intro q c hq; exact hq
  | cons maker rest ih =>
    intro q c hq
    simp only [fillLoop]
    by_cases h0 : 0 < q
    · rw [if_pos h0]
      by_cases hself : maker.user_id = t.user_id
      · rw [if_pos hself]; exact ih q c hq
      · rw [if_neg hself]
        by_cases hfull : maker.remaining_quantity ≤ min q maker.remaining_quantity
        · rw [if_pos hfull]
          have hq2 : (0:ℚ) ≤ q - min q maker.remaining_quantity :=
            sub_nonneg.2 (min_le_left _ _)
          have := ih (q - min q maker.remaining_quantity) (c + 1) hq2
          calc min q maker.remaining_quantity +
                (fillLoop s t p rest (q - min q maker.remaining_quantity)
                  (c + 1)).matched
              ≤ min q maker.remaining_quantity +
                (q - min q maker.remaining_quantity) := by linarith
            _ = q := by ring
        · rw [if_neg hfull]
          exact min_le_left _ _
    · rw [if_neg h0]
      exact hq

theorem fillLoop_progress (s : String) (t : Order) (p : ℚ) :
    ∀ (orders : List OrderEntry) (q : ℚ) (c : Nat), 0 < q →
      (fillLoop s t p orders q c).orders = [] ∨
      (fillLoop s t p orders q c).matched = q := by
  intro orders
  induction orders with
  | nil => intro q c _; left; rfl
  | cons maker rest ih =>
    intro q c hq
    simp only [fillLoop]
    rw [if_pos hq]
    by_cases hself : maker.user_id = t.user_id
    · rw [if_pos hself]
      rcases ih q c hq with h | h
      · left; exact h
      · right; exact h
    · rw [if_neg hself]
      by_cases hfull : maker.remaining_quantity ≤ min q maker.remaining_quantity
      · rw [if_pos hfull]
        have hfq : min q maker.remaining_quantity = maker.remaining_quantity :=
          le_antisymm (min_le_right _ _) hfull
        by_cases hz : 0 < q - min q maker.remaining_quantity
        · rcases ih (q - min q maker.remaining_quantity) (c + 1) hz with h | h
          · left; exact h
          · right
            show min q maker.remaining_quantity + _ = q
            rw [h]; ring
        · right
          have hle : min q maker.remaining_quantity ≤ q := min_le_left _ _
          have hq0 : q - min q maker.remaining_quantity = 0 := by
            have : (0:ℚ) ≤ q - min q maker.remaining_quantity := sub_nonneg.2 hle
            linarith [not_lt.1 hz]
          show min q maker.remaining_quantity + _ = q
          rw [fillLoop_matched_of_nonpos s t p rest _ (c + 1) (by rw [hq0]; exact lt_irrefl 0)]
          linarith [sub_eq_zero.1 hq0]
      · rw [if_neg hfull]
        right
        show min q maker.remaining_quantity = q
        rcases le_total q maker.remaining_quantity with hle | hle
        · exact min_eq_left hle
        · exfalso; apply hfull; rw [min_eq_right hle]

theorem firstKeyValue_mem :
    ∀ (m : PriceMap) (pl : ℚ × Level), firstKeyValue m = some pl → pl ∈ m := by
  intro m
  induction m with
  | nil => intro pl h; cases h
  | cons ql rest ih =>
    obtain ⟨qq, ll⟩ := ql
    intro pl h
    simp only [firstKeyValue] at h
    cases hf : firstKeyValue rest with
    | none =>
      simp only [hf] at h
      cases h
      exact List.mem_cons_self _ _
    | some pl2 =>
      obtain ⟨q2, l2⟩ := pl2
      simp only [hf] at h
      by_cases hle : qq ≤ q2
      · rw [if_pos hle] at h
        cases h
        exact List.mem_cons_self _ _
      · rw [if_neg hle] at h
        cases h
        exact List.mem_cons_of_mem _ (ih _ hf)

theorem lastKeyValue_mem :
    ∀ (m : PriceMap) (pl : ℚ × Level), lastKeyValue m = some pl → pl ∈ m := by
  intro m
  induction m with
  | nil => intro pl h; cases h
  | cons ql rest ih =>
    obtain ⟨qq, ll⟩ := ql
    intro pl h
    simp only [lastKeyValue] at h
    cases hf : lastKeyValue rest with
    | none =>
      simp only [hf] at h
      cases h
      exact List.mem_cons_self _ _
    | some pl2 =>
      obtain ⟨q2, l2⟩ := pl2
      simp only [hf] at h
      by_cases hle : q2 ≤ qq
      · rw [if_pos hle] at h
        cases h
        exact List.mem_cons_self _ _
      · rw [if_neg hle] at h
        cases h
        exact List.mem_cons_of_mem _ (ih _ hf)

theorem getLevel_isSome_of_mem :
    ∀ (m : PriceMap) (p : ℚ) (l : Level), (p, l) ∈ m →
      ∃ l2, getLevel m p = some l2 := by
  intro m
  induction m with
  | nil => intro p l h; cases h
  | cons ql rest ih =>
    obtain ⟨qq, ll⟩ := ql
    intro p l h
    by_cases he : qq = p
    · exact ⟨ll, by simp [getLevel, he]⟩
    · rcases List.mem_cons.1 h with h1 | h1
      · cases h1; exact absurd rfl he
      · obtain ⟨l2, hl2⟩ := ih p l h1
        exact ⟨l2, by simp [getLevel, he, hl2]⟩

theorem getLevel_length_pos (m : PriceMap) (p : ℚ) (l : Level)
    (h : getLevel m p = some l) : 0 < m.length := by
  cases m with
  | nil => cases h
  | cons a rest => simp

theorem eraseLevel_length_le :
    ∀ (m : PriceMap) (p : ℚ), (eraseLevel m p).length ≤ m.length := by
  intro m
  induction m with
  | nil => intro p; exact Nat.le_refl _
  | cons ql rest ih =>
    obtain ⟨qq, ll⟩ := ql
    intro p
    by_cases he : qq = p
    · simp only [eraseLevel, if_pos he]
      exact Nat.le_succ_of_le (ih p)
    · simp only [eraseLevel, if_neg he, List.length_cons]
      exact Nat.succ_le_succ (ih p)

theorem eraseLevel_length_lt :
    ∀ (m : PriceMap) (p : ℚ) (l : Level), getLevel m p = some l →
      (eraseLevel m p).length < m.length := by
  intro m
  induction m with
  | nil => intro p l h; cases h
  | cons ql rest ih =>
    obtain ⟨qq, ll⟩ := ql
    intro p l h
    by_cases he : qq = p
    · simp only [eraseLevel, if_pos he, List.length_cons]
      exact Nat.lt_succ_of_le (eraseLevel_length_le rest p)
    · simp only [getLevel, if_neg he] at h
      simp only [eraseLevel, if_neg he, List.length_cons]
      exact Nat.succ_lt_succ (ih p l h)

theorem get_best_ask_key (bk : OrderBook) (mp : Option ℚ)
    (h : (bk.get_best_ask mp).2 = true) :
    ∃ l, firstKeyValue bk.asks = some ((bk.get_best_ask mp).1, l) := by
  cases mp with
  | none =>
    simp only [OrderBook.get_best_ask] at h ⊢
    cases hf : firstKeyValue bk.asks with
    | none => simp only [hf] at h; cases h
    | some pl =>
      obtain ⟨price, l⟩ := pl
      simp only [hf]
      exact ⟨l, rfl⟩
  | some maxP =>
    simp only [OrderBook.get_best_ask] at h ⊢
    cases hf : firstKeyValue bk.asks with
    | none => simp only [hf] at h; cases h
    | some pl =>
      obtain ⟨price, l⟩ := pl
      simp only [hf] at h ⊢
      by_cases hle : price ≤ maxP
      · rw [if_pos hle]
        exact ⟨l, rfl⟩
      · rw [if_neg hle] at h
        cases h

theorem get_best_bid_key (bk : OrderBook) (mp : Option ℚ)
    (h : (bk.get_best_bid mp).2 = true) :
    ∃ l, lastKeyValue bk.bids = some ((bk.get_best_bid mp).1, l) := by
  cases mp with
  | none =>
    simp only [OrderBook.get_best_bid] at h ⊢
    cases hf : lastKeyValue bk.bids with
    | none => simp only [hf] at h; cases h
    | some pl =>
      obtain ⟨price, l⟩ := pl
      simp only [hf]
      exact ⟨l, rfl⟩
  | some minP =>
    simp only [OrderBook.get_best_bid] at h ⊢
    cases hf : lastKeyValue bk.bids with
    | none => simp only [hf] at h; cases h
    | some pl =>
      obtain ⟨price, l⟩ := pl
      simp only [hf] at h ⊢
      by_cases hle : minP ≤ price
      · rw [if_pos hle]
        exact ⟨l, rfl⟩
      · rw [if_neg hle] at h
        cases h

theorem matchLoop_finished_of_zero (ib : Bool) (f : Nat) (hf : 0 < f)
    (o : Order) (tr : List Trade) (bk : OrderBook) :
    (matchLoop ib f 0 o tr bk).finished = true := by
  cases f with
  | zero => exact absurd hf (lt_irrefl 0)
  | succ n => simp [matchLoop]

theorem match_at_price_buy_eq (bk : OrderBook) (o : Order) (P q : ℚ)
    (level : Level) (hgl : getLevel bk.asks P = some level) :
    bk.match_at_price o P q true =
      ((fillLoop bk.symbol o P level.orders q bk.trade_counter).matched,
       (fillLoop bk.symbol o P level.orders q bk.trade_counter).trades,
       { bk with
           asks :=
             if (fillLoop bk.symbol o P level.orders q
                  bk.trade_counter).orders.isEmpty then
               eraseLevel bk.asks P
             else
               setLevel bk.asks P
                 { orders :=
                     (fillLoop bk.symbol o P level.orders q
                       bk.trade_counter).orders,
                   total_quantity := level.total_quantity -
                     (fillLoop bk.symbol o P level.orders q
                       bk.trade_counter).removed_qty },
           order_prices :=
             (fillLoop bk.symbol o P level.orders q
               bk.trade_counter).filled_ids.foldl locRemove bk.order_prices,
           trade_counter :=
             (fillLoop bk.symbol o P level.orders q
               bk.trade_counter).trade_counter }) := by
  simp [OrderBook.match_at_price, hgl]

theorem match_at_price_sell_eq (bk : OrderBook) (o : Order) (P q : ℚ)
    (level : Level) (hgl : getLevel bk.bids P = some level) :
    bk.match_at_price o P q false =
      ((fillLoop bk.symbol o P level.orders q bk.trade_counter).matched,
       (fillLoop bk.symbol o P level.orders q bk.trade_counter).trades,
       { bk with
           bids :=
             if (fillLoop bk.symbol o P level.orders q
                  bk.trade_counter).orders.isEmpty then
               eraseLevel bk.bids P
             else
               setLevel bk.bids P
                 { orders :=
                     (fillLoop bk.symbol o P level.orders q
                       bk.trade_counter).orders,
                   total_quantity := level.total_quantity -
                     (fillLoop bk.symbol o P level.orders q
                       bk.trade_counter).removed_qty },
           order_prices :=
             (fillLoop bk.symbol o P level.orders q
               bk.trade_counter).filled_ids.foldl locRemove bk.order_prices,
           trade_counter :=
             (fillLoop bk.symbol o P level.orders q
               bk.trade_counter).trade_counter }) := by
  simp [OrderBook.match_at_price, hgl]

theorem ifTrueTrue {α : Sort _} (a b : α) : (if (true = true) then a else b) = a :=
  rfl

theorem ifFalseTrue {α : Sort _} (a b : α) : (if (false = true) then a else b) = b :=
  rfl

theorem matchLoop_finishes (ib : Bool) :
    ∀ (fuel : Nat) (bk : OrderBook) (rem : ℚ) (o : Order) (tr : List Trade),
      0 ≤ rem →
      (if ib then bk.asks.length else bk.bids.length) < fuel →
      (matchLoop ib fuel rem o tr bk).finished = true := by
  intro fuel
  induction fuel with
  | zero => intro bk rem o tr _ hlt; exact absurd hlt (Nat.not_lt_zero _)
  | succ n ih =>
    intro bk rem o tr hrem hlt
    by_cases h0 : rem = 0
    · simp [matchLoop, h0]
    · cases ib with
      | true =>
        simp only [matchLoop, ifTrueTrue, if_true]
        rw [if_neg h0]
        by_cases hcan : (bk.get_best_ask o.price).2 = true
        · rw [if_pos hcan]
          obtain ⟨lvl, hfk⟩ := get_best_ask_key bk o.price hcan
          obtain ⟨level, hglv⟩ := getLevel_isSome_of_mem bk.asks _ lvl
            (firstKeyValue_mem bk.asks _ hfk)
          rw [match_at_price_buy_eq bk o _ rem level hglv]
          rcases fillLoop_progress bk.symbol o (bk.get_best_ask o.price).1
              level.orders rem bk.trade_counter
              (lt_of_le_of_ne hrem (Ne.symm h0)) with hord | hmq
          · apply ih
            · exact sub_nonneg.2
                (fillLoop_matched_le bk.symbol o (bk.get_best_ask o.price).1
                  level.orders rem bk.trade_counter hrem)
            · simp only [hord, List.isEmpty_nil, ifTrueTrue, if_true]
              have h1 : (eraseLevel bk.asks (bk.get_best_ask o.price).1).length <
                  bk.asks.length := eraseLevel_length_lt bk.asks _ level hglv
              have h2 : bk.asks.length < n + 1 := hlt
              omega
          · have hz : rem - (fillLoop bk.symbol o (bk.get_best_ask o.price).1
                level.orders rem bk.trade_counter).matched = 0 := by
              rw [hmq]; ring
            simp only [hz]
            have hn : 0 < n := by
              have h1 : 0 < bk.asks.length :=
                getLevel_length_pos bk.asks _ level hglv
              have h2 : bk.asks.length < n + 1 := hlt
              omega
            exact matchLoop_finished_of_zero true n hn _ _ _
        · rw [if_neg hcan]
      | false =>
        simp only [matchLoop, ifFalseTrue, if_false]
        rw [if_neg h0]
        by_cases hcan : (bk.get_best_bid o.price).2 = true
        · rw [if_pos hcan]
          obtain ⟨lvl, hfk⟩ := get_best_bid_key bk o.price hcan
          obtain ⟨level, hglv⟩ := getLevel_isSome_of_mem bk.bids _ lvl
            (lastKeyValue_mem bk.bids _ hfk)
          rw [match_at_price_sell_eq bk o _ rem level hglv]
          rcases fillLoop_progress bk.symbol o (bk.get_best_bid o.price).1
              level.orders rem bk.trade_counter
              (lt_of_le_of_ne hrem (Ne.symm h0)) with hord | hmq
          · apply ih
            · exact sub_nonneg.2
                (fillLoop_matched_le bk.symbol o (bk.get_best_bid o.price).1
                  level.orders rem bk.trade_counter hrem)
            · simp only [hord, List.isEmpty_nil, ifFalseTrue, if_true]
              have h1 : (eraseLevel bk.bids (bk.get_best_bid o.price).1).length <
                  bk.bids.length := eraseLevel_length_lt bk.bids _ level hglv
              have h2 : bk.bids.length < n + 1 := hlt
              omega
          · have hz : rem - (fillLoop bk.symbol o (bk.get_best_bid o.price).1
                level.orders rem bk.trade_counter).matched = 0 := by
              rw [hmq]; ring
            simp only [hz]
            have hn : 0 < n := by
              have h1 : 0 < bk.bids.length :=
                getLevel_length_pos bk.bids _ level hglv
              have h2 : bk.bids.length < n + 1 := hlt
              omega
            exact matchLoop_finished_of_zero false n hn _ _ _
        · rw [if_neg hcan]

theorem match_order_finished (bk : OrderBook) (o : Order) (f : Nat) :
    (bk.match_order o f).finished =
      (matchLoop o.side.isBuy f o.remaining_quantity o [] bk).finished := by
  simp only [OrderBook.match_order]
  split <;> rfl

/-- Claim C10: with the fuel `process_order` supplies (opposing side length
plus one), the matching loop of `match_order` reaches one of its own exit
conditions — remaining hits zero or no crossable level exists — for every
order with non-negative remaining quantity: each level visit either zeroes
the remaining quantity or removes the best opposing level. -/
theorem c10_matching_loop_terminates (book : OrderBook) (o : Order)
    (h : 0 ≤ o.remaining_quantity) :
    (book.match_order o
      ((if o.side.isBuy then book.asks.length else book.bids.length) + 1)).finished
      = true := by
  rw [match_order_finished]
  exact matchLoop_finishes o.side.isBuy _ book o.remaining_quantity o [] h
    (Nat.lt_succ_self _)

/-- Witness for C10: the matching loop finishes on a concrete book and
order (limit buy 2 @ 2000 against one resting ask). -/
theorem c10_matching_loop_terminates_witness :
    0 ≤ (mkOrder 2 200 Side.Buy OrderType.Limit TimeInForce.GTC
      (some 2000) 2).remaining_quantity ∧
    (bookA1.match_order
      (mkOrder 2 200 Side.Buy OrderType.Limit TimeInForce.GTC (some 2000) 2)
      ((if (mkOrder 2 200 Side.Buy OrderType.Limit TimeInForce.GTC
            (some 2000) 2).side.isBuy
        then bookA1.asks.length else bookA1.bids.length) + 1)).finished = true :=
  ⟨by with_unfolding_all decide,
   c10_matching_loop_terminates bookA1 _ (by with_unfolding_all decide)⟩

/-- Claim C8: price–time priority within a level.  If the maker-consuming
loop of `match_at_price` produced a trade against the queue entry at
position `j`, then every entry at an earlier position `i < j` was consumed
first: it either belonged to the taker's own user (removed by self-trade
prevention) or was filled completely — a trade exists for it whose quantity
is its entire remaining quantity.  Order ids in the queue are assumed
distinct (they are unique by construction of the book). -/
theorem c8_price_time_priority (symbol : String) (taker : Order) (price : ℚ) :
    ∀ (orders : List OrderEntry) (q : ℚ) (ctr : Nat)
      (i j : Nat) (ei ej : OrderEntry),
      (orders.map OrderEntry.order_id).Nodup →
      orders[i]? = some ei → orders[j]? = some ej → i < j →
      (∃ t ∈ (fillLoop symbol taker price orders q ctr).trades,
        t.maker_order_id = ej.order_id) →
      ei.user_id = taker.user_id ∨
      ∃ t ∈ (fillLoop symbol taker price orders q ctr).trades,
        t.maker_order_id = ei.order_id ∧
        t.quantity = ei.remaining_quantity := by
  intro orders
  induction orders with
  | nil => intro q ctr i j ei ej _ hi _ _ _; cases hi
  | cons maker rest ih =>
    intro q ctr i j ei ej hnd hi hj hij ht
    simp only [List.map_cons, List.nodup_cons] at hnd
    by_cases hq : 0 < q
    · cases j with
      | zero => exact absurd hij (Nat.not_lt_zero i)
      | succ jj =>
        simp only [List.getElem?_cons_succ] at hj
        have hejm : ej.order_id ∈ rest.map OrderEntry.order_id :=
          List.mem_map_of_mem _ (List.getElem?_mem hj)
        cases i with
        | zero =>
          simp only [List.getElem?_cons_zero, Option.some.injEq] at hi
          by_cases hself : maker.user_id = taker.user_id
          · left; rw [← hi]; exact hself
          · by_cases hfull :
                maker.remaining_quantity ≤ min q maker.remaining_quantity
            · right
              simp only [fillLoop, if_pos hq, if_neg hself, if_pos hfull]
              refine ⟨_, List.mem_cons_self _ _, ?_, ?_⟩
              · rw [← hi]
              · rw [← hi]
                exact le_antisymm (min_le_right _ _) hfull
            · exfalso
              obtain ⟨t, htm, hte⟩ := ht
              simp only [fillLoop, if_pos hq, if_neg hself,
                if_neg hfull, List.mem_singleton] at htm
              rw [htm] at hte
              simp only [] at hte
              exact hnd.1 (hte ▸ hejm)
        | succ ii =>
          simp only [List.getElem?_cons_succ] at hi
          have hij2 : ii < jj := Nat.succ_lt_succ_iff.1 hij
          by_cases hself : maker.user_id = taker.user_id
          · simp only [fillLoop, if_pos hq, if_pos hself] at ht ⊢
            exact ih q ctr ii jj ei ej hnd.2 hi hj hij2 ht
          · by_cases hfull :
                maker.remaining_quantity ≤ min q maker.remaining_quantity
            · simp only [fillLoop, if_pos hq, if_neg hself,
                if_pos hfull] at ht ⊢
              obtain ⟨t, htm, hte⟩ := ht
              rcases List.mem_cons.1 htm with h1 | h1
              · exfalso
                rw [h1] at hte
                simp only [] at hte
                exact hnd.1 (hte ▸ hejm)
              · rcases ih (q - min q maker.remaining_quantity) (ctr + 1)
                    ii jj ei ej hnd.2 hi hj hij2 ⟨t, h1, hte⟩ with hL | ⟨t2, h2, h3⟩
                · left; exact hL
                · right; exact ⟨t2, List.mem_cons_of_mem _ h2, h3⟩
            · exfalso
              obtain ⟨t, htm, hte⟩ := ht
              simp only [fillLoop, if_pos hq, if_neg hself,
                if_neg hfull, List.mem_singleton] at htm
              rw [htm] at hte
              simp only [] at hte
              exact hnd.1 (hte ▸ hejm)
    · exfalso
      obtain ⟨t, htm, _⟩ := ht
      simp only [fillLoop, if_neg hq, List.not_mem_nil] at htm

/-- Witness for C8 at the S6 scenario: the trade list touches maker 2
(the later entry), so maker 1 (the earlier entry, a different user) is
fully filled by a trade of its whole remaining quantity. -/
theorem c8_price_time_priority_witness :
    (OrderEntry.mk 1 100 2000 1 0).user_id = wTaker.user_id ∨
    ∃ t ∈ (fillLoop "ETH-USDT" wTaker 2000 wOrders (3/2) 0).trades,
      t.maker_order_id = (OrderEntry.mk 1 100 2000 1 0).order_id ∧
      t.quantity = (OrderEntry.mk 1 100 2000 1 0).remaining_quantity :=
  c8_price_time_priority "ETH-USDT" wTaker 2000 wOrders (3/2) 0 0 1
    (OrderEntry.mk 1 100 2000 1 0) (OrderEntry.mk 2 200 2000 1 1)
    (by with_unfolding_all decide) (by with_unfolding_all decide)
    (by with_unfolding_all decide) (by with_unfolding_all decide)
    (by with_unfolding_all decide)

/-- Witness for the amended C6 claim on the concrete post-self-trade book:
the cancel succeeds, bumps `book_sequence`, and a second cancel fails. -/
theorem c6_cancel_keyed_witness :
    (c6book.cancel_order 1).1 = true ∧
    (c6book.cancel_order 1).2.book_sequence = c6book.book_sequence + 1 ∧
    ((c6book.cancel_order 1).2.cancel_order 1).1 = false :=
  ⟨(c6_cancel_keyed_on_location_index c6book 1).1.mpr
      (by with_unfolding_all decide),
   (c6_cancel_keyed_on_location_index c6book 1).2.1
      ((c6_cancel_keyed_on_location_index c6book 1).1.mpr
        (by with_unfolding_all decide)),
   (c6_cancel_keyed_on_location_index c6book 1).2.2.2⟩

end FastTrading
